import Mathlib

/-!
Verification development for the csvconv repository (github.com/yhat/csvconv).

The repository converts CSV (tabular) documents to JSON (structured) documents
and back.  The source ships two revisions of the single Go file:
`src/csvconv.go` and `src/unnamed/part_000`.  Their Reader / `toJSONStruct` /
`ToJSON` halves (lines 1-218) are byte for byte identical; the JSON-to-CSV
halves differ: `part_000` carries the complete `parseJSONByColumn`
implementation (the one in `csvconv.go` is a stub returning no bytes), so the
JSON-to-CSV side is embedded from `part_000`, with the older `csvconv.go`
variant of `parseJSONByRecord` kept alongside under the `CsvconvV0` namespace
for comparison.

External collaborators (the CSV tokenizer `encoding/csv` scanning, the JSON
parser `encoding/json`, `strconv`, `fmt`) are modelled at the boundary the
code uses them: the tokenizer delivers a list of records (lists of string
fields) and its `FieldsPerRecord` arity enforcement is part of the model; the
JSON parser delivers a tree of null/bool/number/string/array/object nodes;
`strconv.ParseFloat` acceptance and `strconv.Quote` are modelled character by
character from their documented syntax.
-/

/-- ASCII lower-casing used for Go's case-insensitive comparisons. -/
def lowerChar (c : Char) : Char :=
  if 'A' ≤ c ∧ c ≤ 'Z' then Char.ofNat (c.toNat + 32) else c

/-- Case-insensitive comparison of a character list against a lowercase
pattern. -/
def lowerIs (cs : List Char) (pat : List Char) : Bool :=
  cs.map lowerChar = pat

/-- Model of the syntax accepted by Go `strconv.ParseFloat`'s `special`
function restricted to full-string consumption: an optional sign followed by
case-insensitive `inf` or `infinity`, or unsigned case-insensitive `nan`
(after a sign, Go's `fallthrough` only reaches the infinity check, so a
signed `nan` is rejected). -/
def specialAccepts (s : String) : Bool :=
  match s.data with
  | [] => false
  | c :: rest =>
    if c = '+' ∨ c = '-' then
      lowerIs rest ['i', 'n', 'f'] ∨ lowerIs rest "infinity".data
    else if lowerChar c = 'i' then
      lowerIs (c :: rest) ['i', 'n', 'f'] ∨ lowerIs (c :: rest) "infinity".data
    else if lowerChar c = 'n' then lowerIs (c :: rest) ['n', 'a', 'n']
    else false

/-- Hexadecimal digit test used by Go `strconv.readFloat` in hex mode. -/
def isHexDigitGo (c : Char) : Bool :=
  c.isDigit ∨ ('a' ≤ lowerChar c ∧ lowerChar c ≤ 'f')

/-- Mantissa scan of Go `strconv.readFloat`: consumes digits (hex digits when
`hx` is set), underscores, and at most one dot; returns whether at least one
digit was seen together with the unconsumed suffix (the scan stops at a
second dot or any other character). -/
def scanMant (hx : Bool) : List Char → Bool → Bool → Bool × List Char
  | [], _, sawdig => (sawdig, [])
  | c :: cs, sawdot, sawdig =>
    if c = '_' then scanMant hx cs sawdot sawdig
    else if c = '.' then
      if sawdot then (sawdig, c :: cs) else scanMant hx cs true sawdig
    else if (if hx then isHexDigitGo c else c.isDigit) then
      scanMant hx cs sawdot true
    else (sawdig, c :: cs)

/-- Exponent part of Go `strconv.readFloat` after the `e`/`p` marker: an
optional sign, then a first character that must be a decimal digit, then
digits and underscores; the whole remaining input must be consumed. -/
def scanExp (cs : List Char) : Bool :=
  let cs1 := match cs with
    | c :: r => if c = '+' ∨ c = '-' then r else cs
    | [] => cs
  match cs1 with
  | [] => false
  | d :: r => d.isDigit ∧ (r.all fun c => c.isDigit ∨ c = '_')

/-- Number syntax of Go `strconv.readFloat` (full-string): optional sign; a
`0x`/`0X` prefix (only recognised when at least one character follows it)
switches to hexadecimal mode whose exponent marker `p` is mandatory; decimal
mode takes an optional `e` exponent.  Underscore placement is validated
separately by `underscoreOKGo`. -/
def floatSyntaxOK (cs : List Char) : Bool :=
  let cs1 := match cs with
    | c :: r => if c = '+' ∨ c = '-' then r else cs
    | [] => cs
  match cs1 with
  | '0' :: x :: c3 :: rest =>
    if lowerChar x = 'x' then
      match scanMant true (c3 :: rest) false false with
      | (sawdig, e :: r) => sawdig ∧ lowerChar e = 'p' ∧ scanExp r
      | (_, []) => false
    else
      match scanMant false cs1 false false with
      | (sawdig, []) => sawdig
      | (sawdig, e :: r) => sawdig ∧ lowerChar e = 'e' ∧ scanExp r
  | _ =>
    match scanMant false cs1 false false with
    | (sawdig, []) => sawdig
    | (sawdig, e :: r) => sawdig ∧ lowerChar e = 'e' ∧ scanExp r

/-- Category of the previously scanned character inside Go
`strconv.underscoreOK`. -/
inductive USaw
  | start
  | digit
  | under
  | other
deriving DecidableEq

/-- Loop of Go `strconv.underscoreOK`: an underscore must directly follow a
digit (or the base prefix) and must be directly followed by a digit. -/
def underscoreAux (hx : Bool) : List Char → USaw → Bool
  | [], saw => saw ≠ USaw.under
  | c :: cs, saw =>
    if c = '_' then
      if saw = USaw.digit then underscoreAux hx cs USaw.under else false
    else if c.isDigit ∨ (hx ∧ isHexDigitGo c) then underscoreAux hx cs USaw.digit
    else if saw = USaw.under then false
    else underscoreAux hx cs USaw.other

/-- Model of Go `strconv.underscoreOK` on the whole consumed string: skips an
optional sign and a `0x` base prefix (which counts as a digit for underscore
purposes), then runs `underscoreAux`.  It is vacuously true when the string
contains no underscore. -/
def underscoreOKGo (cs : List Char) : Bool :=
  let cs1 := match cs with
    | c :: r => if c = '+' ∨ c = '-' then r else cs
    | [] => cs
  match cs1 with
  | '0' :: x :: rest =>
    if lowerChar x = 'x' then underscoreAux true rest USaw.digit
    else underscoreAux false cs1 USaw.start
  | _ => underscoreAux false cs1 USaw.start

/-- Acceptance of Go `strconv.ParseFloat(s, 64)` on the whole string: either
a special value (`Inf`, `NaN`, ...) or number syntax with well-placed
underscores.  Only syntax acceptance is modelled - the code under
verification (`toJSONStruct`) discards the parsed value and only branches on
the error. -/
def goParseFloatAccepts (s : String) : Bool :=
  specialAccepts s ∨ (floatSyntaxOK s.data ∧ underscoreOKGo s.data)

/-- Acceptance of Go `strconv.Atoi`: an optional sign followed by at least
one decimal digit (base-10 parsing accepts no underscores). -/
def goParseIntAccepts (s : String) : Bool :=
  match s.data with
  | [] => false
  | c :: rest =>
    let ds := if c = '+' ∨ c = '-' then rest else c :: rest
    ¬ ds.isEmpty ∧ ds.all Char.isDigit

/-- Escape of a single character inside Go `strconv.Quote`: printable ASCII
is kept, the quote and backslash are backslash-escaped, common control
characters use their mnemonic escapes, anything else a numeric escape (Go
uses `\xNN`/`\uNNNN`; the exact digits are irrelevant to every claim and are
modelled as a hexadecimal rendering). -/
def goQuoteChar (c : Char) : List Char :=
  if c = '"' then ['\\', '"']
  else if c = '\\' then ['\\', '\\']
  else if c = '\n' then ['\\', 'n']
  else if c = '\r' then ['\\', 'r']
  else if c = '\t' then ['\\', 't']
  else if 0x20 ≤ c.toNat ∧ c.toNat ≤ 0x7e then [c]
  else '\\' :: 'u' :: Nat.toDigits 16 c.toNat

/-- Body of Go `strconv.Quote`: every character escaped in order. -/
def goQuoteAux : List Char → List Char
  | [] => []
  | c :: cs => goQuoteChar c ++ goQuoteAux cs

/-- Model of Go `strconv.Quote`: the escaped body wrapped in double quotes. -/
def goQuote (s : String) : String :=
  String.mk ('"' :: (goQuoteAux s.data ++ ['"']))

/-- ASCII part of Go `unicode.IsSpace` (the non-ASCII space code points are
irrelevant to the claims). -/
def isSpaceGo (c : Char) : Bool :=
  c = ' ' ∨ c = '\t' ∨ c = '\n' ∨ c = '\x0b' ∨ c = '\x0c' ∨ c = '\r'

/-- Model of Go `encoding/csv` `Writer.fieldNeedsQuotes`: empty fields are
unquoted; the literal `\.` field, any field containing the separator, a
quote, or a line break, and any field starting with a space character are
quoted. -/
def fieldNeedsQuotes (sep : Char) (f : String) : Bool :=
  if f = "" then false
  else if f = "\\." then true
  else
    (f.data.any fun c => c = sep ∨ c = '"' ∨ c = '\r' ∨ c = '\n') ∨
      isSpaceGo (f.data.headD '0')

/-- Quoted rendering of a CSV field: inner quotes are doubled (with the
writer's default line-ending mode, `\r` and `\n` are written through
unchanged). -/
def csvQuoteField (f : String) : String :=
  String.mk ('"' :: ((f.data.map fun c =>
    if c = '"' then ['"', '"'] else [c]).flatten ++ ['"']))

/-- One field as written by Go `encoding/csv` `Writer.Write`. -/
def csvField (sep : Char) (f : String) : String :=
  if fieldNeedsQuotes sep f then csvQuoteField f else f

/-- One record line as written by Go `encoding/csv` `Writer.Write`: fields
joined by the separator, terminated by a newline (`UseCRLF` is unset). -/
def csvLine (sep : Char) (fields : List String) : String :=
  String.intercalate (String.mk [sep]) (fields.map (csvField sep)) ++ "\n"

/-- Structured (JSON) scalar handed to the CSV emitters, as discriminated by
the `switch val.(type)` in `parseJSONByRecord` / `parseJSONByColumn`.  The
`vint` constructor models the switch's `case int` arm, which is dead code
for JSON-decoded payloads - `json.Unmarshal` into `interface` delivers every
JSON number as `float64` - but remains in the source and is callable with
any interface value.  Float nodes carry the value in units of 10^-6 so that
the fixed-point `%f` rendering is exact; composite values (arrays, objects)
carry their `%v` rendering opaquely - no claim exercises them. -/
inductive JValue
  | vint (n : Int)
  | vfloat (micros : Int)
  | vnull
  | vstr (s : String)
  | vbool (b : Bool)
  | vother (rendering : String)
deriving DecidableEq, Repr

/-- Six-digit zero-padded decimal, the fractional part of Go `%f`. -/
def pad6 (n : Nat) : String :=
  let s := toString n
  String.mk (List.replicate (6 - s.length) '0') ++ s

/-- Go `fmt.Sprintf("%f", x)` on a float worth `micros * 10^-6`. -/
def sprintfF (micros : Int) : String :=
  (if micros < 0 then "-" else "") ++
    toString (micros.natAbs / 1000000) ++ "." ++ pad6 (micros.natAbs % 1000000)

/-- Cell stringification switch shared by `parseJSONByRecord` and
`parseJSONByColumn` (`%d` for ints, `%f` for floats, empty for nil, verbatim
for strings, `%v` otherwise). -/
def strVal : JValue → String
  | JValue.vint n => toString n
  | JValue.vfloat micros => sprintfF micros
  | JValue.vnull => ""
  | JValue.vstr s => s
  | JValue.vbool b => if b then "true" else "false"
  | JValue.vother rendering => rendering

/-- Errors surfaced by the embedded code.  The doc strings of the
constructors name the Go value and the spec's taxonomy entry. -/
inductive GoErr
  /-- Go `io.EOF`; the spec's `EmptyInput` when no data row was consumed. -/
  | eof
  /-- Go `csv.ErrFieldCount`; the spec's `ArityMismatch`. -/
  | errFieldCount
  /-- Go `errHeaderAlreadySet`; the spec's `HeaderAlreadySet`. -/
  | headerAlreadySet
  /-- Go "Object did not contain the proper keys" from `parseJSONByRecord`;
  the spec's `UnexpectedKey`. -/
  | wrongKeys
  /-- Go "JSON keys did not match expected headers" from
  `parseJSONByColumn`; one half of the spec's `HeaderMismatch`. -/
  | keyNotExpected
  /-- Go "JSON missing keys" from `parseJSONByColumn`; the other half of the
  spec's `HeaderMismatch`. -/
  | missingKeys
  /-- Go "JSON does not conform to CSV encodings" from `ToCSV`; the spec's
  `UnrecognizedShape`. -/
  | unrecognizedShape
  /-- Go runtime panic `index out of range`, raised by `values[i]` in
  `parseJSONByColumn`. -/
  | indexOutOfRange
deriving DecidableEq

/-- State of the underlying `encoding/csv` reader as used by this package:
the tokenizer (an external collaborator) has already split the byte stream
into records of string fields; what remains of `csv.Reader` in the model is
the record queue and the `FieldsPerRecord` arity enforcement (0 means: adopt
the length of the first record read). -/
structure CsvReader where
  pending : List (List String)
  fieldsPerRecord : Int
deriving DecidableEq

/-- One `csv.Reader.Read` call: end of queue is `io.EOF`; a record whose
length differs from a positive `FieldsPerRecord` is `csv.ErrFieldCount`;
`FieldsPerRecord = 0` adopts the first record's length. -/
def CsvReader.read : CsvReader → Except GoErr (List String) × CsvReader
  | ⟨[], f⟩ => (Except.error GoErr.eof, ⟨[], f⟩)
  | ⟨rec :: rest, f⟩ =>
    if 0 < f then
      if (rec.length : Int) = f then (Except.ok rec, ⟨rest, f⟩)
      else (Except.error GoErr.errFieldCount, ⟨rest, f⟩)
    else if f = 0 then (Except.ok rec, ⟨rest, (rec.length : Int)⟩)
    else (Except.ok rec, ⟨rest, f⟩)

/-- The package's `Reader` struct (identical in both source revisions). -/
structure Reader where
  reader : CsvReader
  headerSet : Bool
  header : List String
  nCols : Nat
deriving DecidableEq

/-- Go `NewReader(in, sep)`: the separator is consumed by the external
tokenizer; the model receives the tokenized records.  `FieldsPerRecord`
starts at 0 and `headerSet` at false. -/
def NewReader (records : List (List String)) : Reader :=
  ⟨⟨records, 0⟩, false, [], 0⟩

/-- Go `(*Reader).setHeader`: fails with `errHeaderAlreadySet` when called
twice; otherwise reads the first record, quotes each name with
`strconv.Quote`, fixes the column count and pins `FieldsPerRecord` to it. -/
def Reader.setHeader (r : Reader) : Except GoErr Unit × Reader :=
  if r.headerSet then (Except.error GoErr.headerAlreadySet, r)
  else
    match r.reader.read with
    | (Except.error e, c) => (Except.error e, { r with reader := c })
    | (Except.ok rec, c) =>
      (Except.ok (),
        { reader := { c with fieldsPerRecord := (rec.length : Int) },
          headerSet := true,
          header := rec.map goQuote,
          nCols := rec.length })

/-- Go `(*Reader).Read`: sets the header first when unset (its error is
discarded), then reads one record. -/
def Reader.read (r : Reader) : Except GoErr (List String) × Reader :=
  let r1 := if r.headerSet then r else (Reader.setHeader r).2
  match r1.reader.read with
  | (Except.error e, c) => (Except.error e, { r1 with reader := c })
  | (Except.ok rec, c) => (Except.ok rec, { r1 with reader := c })

/-- The `JSONOrient` enumeration (`OrientColumns = iota`, `OrientRecords`). -/
inductive JSONOrient
  | OrientColumns
  | OrientRecords
deriving DecidableEq

/-- Go `math.MaxInt64`, substituted for a negative row limit. -/
def maxInt64 : Nat := 2 ^ 63 - 1

/-- Per-cell value rendering of `toJSONStruct` (the same code appears in the
columns branch, lines 123-131, and the records branch, lines 176-188): a
cell accepted by `strconv.ParseFloat(val, 64)` is written verbatim, an empty
cell becomes `null`, anything else is `strconv.Quote`d. -/
def renderCell (val : String) : String :=
  if goParseFloatAccepts val then val
  else if val = "" then "null"
  else goQuote val

/-- Inner loop of the columns branch (lines 108-110): for each index
`colNum` of the record, append `record[colNum]` to `data[colNum]`, written
as the recursion peeling one column per step.  Columns of `data` beyond the
record's length stay untouched, as in Go; a record longer than `data` would
panic in Go and is unreachable here because `FieldsPerRecord` is pinned to
the header length. -/
def updateData : List (List String) → List String → List (List String)
  | data, [] => data
  | [], _ :: _ => []
  | col :: cols, c :: cs => (col ++ [c]) :: updateData cols cs

/-- Row-reading loop of the columns branch (lines 98-111): reads until the
fuel (the row limit) runs out; a read error on the first row, or any
non-EOF error, aborts with that error and the rows read so far; EOF after at
least one row ends the loop normally. -/
def colsLoop : Nat → Reader → Nat → List (List String) →
    Nat × List (List String) × Option GoErr × Reader
  | 0, r, nRead, data => (nRead, data, none, r)
  | Nat.succ fuel, r, nRead, data =>
    match Reader.read r with
    | (Except.error e, r1) =>
      if nRead = 0 ∨ e ≠ GoErr.eof then (nRead, data, some e, r1)
      else (nRead, data, none, r1)
    | (Except.ok rec, r1) => colsLoop fuel r1 (nRead + 1) (updateData data rec)

/-- Emission phase of the columns branch (lines 112-152): a JSON object
whose keys are the (already `strconv.Quote`d) header names and whose values
are arrays of the buffered cells, each rendered by `renderCell`. -/
def emitCols (headers : List String) (data : List (List String)) : String :=
  "\x7b" ++ String.intercalate ","
    ((headers.zip data).map fun p =>
      p.1 ++ ":[" ++ String.intercalate "," (p.2.map renderCell) ++ "]") ++ "\x7d"

/-- One record of the records branch (lines 173-196): a JSON object pairing
each quoted header name with the row's rendered cell. -/
def emitRec (headers : List String) (rec : List String) : String :=
  "\x7b" ++ String.intercalate ","
    ((headers.zip rec).map fun p => p.1 ++ ":" ++ renderCell p.2) ++ "\x7d"

/-- Row loop of the records branch (lines 158-197): same read/EOF policy as
`colsLoop`, but each record is rendered and appended to the output (with a
comma before every record but the first) as soon as it is read. -/
def recsLoop (headers : List String) : Nat → Reader → Nat → String →
    Nat × String × Option GoErr × Reader
  | 0, r, nRead, acc => (nRead, acc, none, r)
  | Nat.succ fuel, r, nRead, acc =>
    match Reader.read r with
    | (Except.error e, r1) =>
      if nRead = 0 ∨ e ≠ GoErr.eof then (nRead, acc, some e, r1)
      else (nRead, acc, none, r1)
    | (Except.ok rec, r1) =>
      recsLoop headers fuel r1 (nRead + 1)
        (acc ++ (if nRead = 0 then "" else ",") ++ emitRec headers rec)

/-- Result of `toJSONStruct` / `ToJSON`: rows read, bytes written, error,
and the mutated receiver. -/
structure ConvOut where
  nRead : Nat
  out : String
  err : Option GoErr
  rdr : Reader
deriving DecidableEq

/-- Go `(*Reader).toJSONStruct` (lines 85-205): a negative row limit becomes
`math.MaxInt64`; the header is set first (error discarded, line 89); then
the orientation's loop runs.  In the columns orientation nothing has been
written when the loop aborts; in the records orientation the opening `[` and
the records so far have. -/
def toJSONStruct (r : Reader) (orient : JSONOrient) (nRows : Int) : ConvOut :=
  let fuel : Nat := if nRows < 0 then maxInt64 else nRows.toNat
  let r1 := (Reader.setHeader r).2
  match orient with
  | JSONOrient.OrientColumns =>
    match colsLoop fuel r1 0 (List.replicate r1.nCols []) with
    | (nRead, _, some e, r2) => ⟨nRead, "", some e, r2⟩
    | (nRead, data, none, r2) => ⟨nRead, emitCols r2.header data, none, r2⟩
  | JSONOrient.OrientRecords =>
    match recsLoop r1.header fuel r1 0 "" with
    | (nRead, acc, some e, r2) => ⟨nRead, "[" ++ acc, some e, r2⟩
    | (nRead, acc, none, r2) => ⟨nRead, "[" ++ acc ++ "]", none, r2⟩

/-- Go `(*Reader).ToJSON` (lines 210-218): runs `toJSONStruct` into a fresh
buffer and discards the buffer on error, so a failed conversion returns zero
output bytes together with the partial row count. -/
def ToJSON (r : Reader) (orient : JSONOrient) (nRows : Int) : ConvOut :=
  let res := toJSONStruct r orient nRows
  match res.err with
  | some e => ⟨res.nRead, "", some e, res.rdr⟩
  | none => res

deriving instance DecidableEq for Except

/-- The `JSONReader` session struct: the header lock shared by repeated
`ToCSV` calls. -/
structure JSONReader where
  headersSet : Bool
  expectedHeaders : List String
deriving DecidableEq

/-- Go `NewJSONReader()`: lock unset, no expected headers. -/
def NewJSONReader : JSONReader := ⟨false, []⟩

/-- Go `appendIfMissing` (part_000 lines 245-252): append unless already
present. -/
def appendIfMissing (slice : List String) (i : String) : List String :=
  if slice.contains i then slice else slice ++ [i]

/-- Header collection loop of `parseJSONByRecord` (part_000 lines 259-264):
the union of the keys of all row maps in first-seen order, where the
iteration order of each decoded row map is the order of its association
list. -/
def collectHeaders (v : List (List (String × JValue))) : List String :=
  v.foldl (fun hs record => record.foldl (fun hs kv => appendIfMissing hs kv.1) hs) []

/-- Key lookup in a decoded row map. -/
def recLookup (record : List (String × JValue)) (k : String) : Option JValue :=
  (record.find? fun kv => kv.1 == k).map Prod.snd

/-- Cell materialization of one output row of `parseJSONByRecord` (part_000
lines 292-311): look up each header in the row map; a missing key or an
explicit nil yields the empty cell; otherwise the `strVal` switch applies. -/
def rowCells (headers : List String) (record : List (String × JValue)) : List String :=
  headers.map fun h =>
    match recLookup record h with
    | some val => strVal val
    | none => ""

/-- Go `(*JSONReader).parseJSONByRecord` of part_000 (lines 254-318).  On a
fresh session the collected headers become the lock and, in this revision,
no header line is written; on a locked session every collected key must
already be expected (else the "proper keys" error), the locked header order
is used, and the header line is written.  Rows are written through the
`encoding/csv` writer with the caller's separator. -/
def JSONReader.parseJSONByRecord (d : JSONReader) (v : List (List (String × JValue)))
    (sep : Char) : JSONReader × Except GoErr String :=
  let headers := collectHeaders v
  if ¬ d.headersSet then
    let d1 : JSONReader := ⟨true, headers⟩
    (d1, Except.ok (String.join (v.map fun record => csvLine sep (rowCells headers record))))
  else if headers.all (fun h => d.expectedHeaders.contains h) then
    (d, Except.ok (csvLine sep d.expectedHeaders ++
      String.join (v.map fun record => csvLine sep (rowCells d.expectedHeaders record))))
  else (d, Except.error GoErr.wrongKeys)

namespace CsvconvV0

/-- Go `(*JSONReader).parseJSONByRecord` of the csvconv.go revision (lines
254-317): identical key handling, but the header line is written
unconditionally - on the first conversion and on every later one. -/
def parseJSONByRecord (d : JSONReader) (v : List (List (String × JValue)))
    (sep : Char) : JSONReader × Except GoErr String :=
  let headers := collectHeaders v
  if ¬ d.headersSet then
    let d1 : JSONReader := ⟨true, headers⟩
    (d1, Except.ok (csvLine sep headers ++
      String.join (v.map fun record => csvLine sep (rowCells headers record))))
  else if headers.all (fun h => d.expectedHeaders.contains h) then
    (d, Except.ok (csvLine sep d.expectedHeaders ++
      String.join (v.map fun record => csvLine sep (rowCells d.expectedHeaders record))))
  else (d, Except.error GoErr.wrongKeys)

end CsvconvV0

/-- Column lookup in a decoded column map (Go `v[col]`; an absent key gives
the nil slice). -/
def colLookup (v : List (String × List JValue)) (col : String) : Option (List JValue) :=
  (v.find? fun kv => kv.1 == col).map Prod.snd

/-- One cell of `parseJSONByColumn`'s row loop (part_000 lines 363-382),
translated condition for condition: Go tests `len(values) < i` (not `<= i`),
so at `i = len(values)` the branch falls through to `values[i]`, an index
out of range - modelled as the `indexOutOfRange` error. -/
def colCell (v : List (String × List JValue)) (col : String) (i : Nat) :
    Except GoErr String :=
  let values := (colLookup v col).getD []
  if values.length < i then Except.ok ""
  else
    match values.get? i with
    | some val => Except.ok (strVal val)
    | none => Except.error GoErr.indexOutOfRange

/-- One output row of `parseJSONByColumn` (part_000 lines 361-383): the
cells of every column name in order; a panic aborts the whole call. -/
def buildRow (v : List (String × List JValue)) : List String → Nat →
    Except GoErr (List String)
  | [], _ => Except.ok []
  | col :: rest, i =>
    match colCell v col i with
    | Except.error e => Except.error e
    | Except.ok s => (buildRow v rest i).map fun cells => s :: cells

/-- Row loop of `parseJSONByColumn` (part_000 lines 360-387): one CSV line
per row index `i`, `remaining` more rows to produce. -/
def buildRowsAux (v : List (String × List JValue)) (colnames : List String) :
    Nat → Nat → Except GoErr String
  | _, 0 => Except.ok ""
  | i, Nat.succ remaining =>
    match buildRow v colnames i with
    | Except.error e => Except.error e
    | Except.ok cells =>
      (buildRowsAux v colnames (i + 1) remaining).map fun s => csvLine ',' cells ++ s

/-- All data lines of `parseJSONByColumn`: row indices 0 to
`maxLength - 1`. -/
def buildRows (v : List (String × List JValue)) (colnames : List String)
    (maxLength : Nat) : Except GoErr String :=
  buildRowsAux v colnames 0 maxLength

/-- Go `(*JSONReader).parseJSONByColumn` of part_000 (lines 320-390).  The
row count is the maximum column-array length.  On a locked session the key
set is checked both ways against the lock; on a fresh session the keys (in
the decoded map's iteration order) are stored as `expectedHeaders` and
written as the header line - but `headersSet` is never assigned, faithful to
the source, so the stored lock never engages.  This writer always uses the
comma separator: the Go function creates its `csv.NewWriter` without setting
`Comma`. -/
def JSONReader.parseJSONByColumn (d : JSONReader) (v : List (String × List JValue)) :
    JSONReader × Except GoErr String :=
  let maxLength := v.foldl (fun m kv => max m kv.2.length) 0
  let keys := v.map Prod.fst
  if d.headersSet then
    if ¬ keys.all (fun k => d.expectedHeaders.contains k) then
      (d, Except.error GoErr.keyNotExpected)
    else if ¬ d.expectedHeaders.all (fun k => (colLookup v k).isSome) then
      (d, Except.error GoErr.missingKeys)
    else (d, buildRows v d.expectedHeaders maxLength)
  else
    let d1 : JSONReader := ⟨d.headersSet, keys⟩
    (d1, (buildRows v keys maxLength).map fun s => csvLine ',' keys ++ s)

/-- Structured payload tree delivered by the external JSON parser (the
node kinds `json.Unmarshal` produces for an `interface` target: null, bool,
number, string, array, object).  Every JSON number - `1` as much as `1.5` -
is decoded as `float64`, so the tree has a single number node kind,
`jfloat`, carrying the value in units of 10^-6. -/
inductive Json
  | jnull
  | jbool (b : Bool)
  | jfloat (micros : Int)
  | jstr (s : String)
  | jarr (elems : List Json)
  | jobj (fields : List (String × Json))

mutual

/-- Generic `%v` rendering for composite values reaching the `default` arm
of the `strVal` switch; the exact text is exercised by no claim. -/
def govRender : Json → String
  | Json.jnull => "<nil>"
  | Json.jbool b => if b then "true" else "false"
  | Json.jfloat micros => sprintfF micros
  | Json.jstr s => s
  | Json.jarr es => "[" ++ govRenderList es ++ "]"
  | Json.jobj fs => "map[" ++ govRenderFields fs ++ "]"

/-- Space-joined `%v` list rendering. -/
def govRenderList : List Json → String
  | [] => ""
  | [e] => govRender e
  | e :: es => govRender e ++ " " ++ govRenderList es

/-- Space-joined `%v` map rendering. -/
def govRenderFields : List (String × Json) → String
  | [] => ""
  | [kv] => kv.1 ++ ":" ++ govRender kv.2
  | kv :: fs => kv.1 ++ ":" ++ govRender kv.2 ++ " " ++ govRenderFields fs

end

/-- Scalar handed to the `switch val.(type)` dispatch for one tree node.
No node maps to `JValue.vint`: decoded payloads never reach the switch's
`case int` arm. -/
def toJValue : Json → JValue
  | Json.jnull => JValue.vnull
  | Json.jbool b => JValue.vbool b
  | Json.jfloat micros => JValue.vfloat micros
  | Json.jstr s => JValue.vstr s
  | Json.jarr es => JValue.vother (govRender (Json.jarr es))
  | Json.jobj fs => JValue.vother (govRender (Json.jobj fs))

/-- Success condition of `json.Unmarshal` into one `map[string]interface` of
the record slice: an object node (or a null, which leaves the map empty). -/
def asRecordMap : Json → Option (List (String × JValue))
  | Json.jnull => some []
  | Json.jobj fs => some (fs.map fun kv => (kv.1, toJValue kv.2))
  | _ => none

/-- Success condition of `json.Unmarshal(data, &byRecord)` with `byRecord :
[]map[string]interface` (part_000 lines 234-235): a top-level array whose
every element is an object or null, or a top-level null. -/
def asRecordArray : Json → Option (List (List (String × JValue)))
  | Json.jnull => some []
  | Json.jarr es => es.mapM asRecordMap
  | _ => none

/-- Success condition of `json.Unmarshal` into one `[]interface` column: an
array node or null. -/
def asColumnEntry : Json → Option (List JValue)
  | Json.jnull => some []
  | Json.jarr es => some (es.map toJValue)
  | _ => none

/-- Success condition of `json.Unmarshal(data, &byColumn)` with `byColumn :
map[string][]interface` (part_000 lines 238-239): a top-level object whose
every value is an array or null, or a top-level null. -/
def asColumnMap : Json → Option (List (String × List JValue))
  | Json.jnull => some []
  | Json.jobj fs => fs.mapM fun kv => (asColumnEntry kv.2).map fun l => (kv.1, l)
  | _ => none

/-- Go `(*JSONReader).ToCSV` of part_000 (lines 229-243): try the
record-array decoding first, the column-map decoding second, and fail with
the "does not conform" error when both decodings fail. -/
def JSONReader.ToCSV (d : JSONReader) (payload : Json) (sep : Char) :
    JSONReader × Except GoErr String :=
  match asRecordArray payload with
  | some byRecord => d.parseJSONByRecord byRecord sep
  | none =>
    match asColumnMap payload with
    | some byColumn => d.parseJSONByColumn byColumn
    | none => (d, Except.error GoErr.unrecognizedShape)

/-- The `colType` enumeration of csvconv.go lines 51-56 (`colTypeNum =
iota`, `colTypeStr`): declared by the source and never used by any of its
functions. -/
inductive colType
  | colTypeNum
  | colTypeStr
deriving DecidableEq

/-- Modelled from the spec: the repository declares the two-value `colType`
enum above but ships no `observe`/`classify` implementation for it, so the
spec's three-state `ColumnTypeState` (section 3) is modelled from the spec's
words. -/
inductive ColTypeState
  | integer
  | float
  | str
deriving DecidableEq

/-- Position of a state in the promotion order Integer < Float < String. -/
def ColTypeState.rank : ColTypeState → Nat
  | ColTypeState.integer => 0
  | ColTypeState.float => 1
  | ColTypeState.str => 2

/-- Modelled from the spec (section 4.1, absent from src):
`observe(value)` - an integer-parsing value changes nothing; otherwise a
float-parsing value promotes Integer to Float; otherwise a non-empty value
promotes to String; the empty (Null) cell never forces promotion; String is
terminal. -/
def observe (st : ColTypeState) (value : String) : ColTypeState :=
  if value = "" then st
  else if goParseIntAccepts value then st
  else if goParseFloatAccepts value then
    if st = ColTypeState.integer then ColTypeState.float else st
  else ColTypeState.str

/-- Committed state of a column after the first `n` observed values,
starting from Integer. -/
def statesAfter (values : List String) (n : Nat) : ColTypeState :=
  (values.take n).foldl observe ColTypeState.integer

/-- First-occurrence deduplication, the specification-side description of
the column order produced by `collectHeaders`. -/
def firstSeenSpec : List String → List String
  | [] => []
  | k :: ks => k :: firstSeenSpec (ks.filter fun x => x ≠ k)
termination_by l => l.length
decreasing_by
  simp only [List.length_cons]
  exact Nat.lt_succ_of_le (List.length_filter_le _ _)

/-- Keys of all row maps in iteration order, flattened. -/
def allKeys (v : List (List (String × JValue))) : List String :=
  (v.map fun record => record.map Prod.fst).flatten

/-- Specification-side transpose: column `j` of a row list is the `j`-th
cell of every row. -/
def columnsOf (n : Nat) (rows : List (List String)) : List (List String) :=
  (List.range n).map fun j => rows.map fun r => r.getD j ""

theorem goQuoteChar_length_pos (c : Char) : 1 ≤ (goQuoteChar c).length := by
  unfold goQuoteChar
  split
  · simp
  · split
    · simp
    · split
      · simp
      · split
        · simp
        · split
          · simp
          · split
            · simp
            · simp

theorem goQuoteAux_length (cs : List Char) : cs.length ≤ (goQuoteAux cs).length := by
  induction cs with
  | nil => simp [goQuoteAux]
  | cons c cs ih =>
    have h := goQuoteChar_length_pos c
    simp only [goQuoteAux, List.length_append, List.length_cons]
    omega

theorem goQuote_ne_self (s : String) : goQuote s ≠ s := by
  intro h
  have hd : '"' :: (goQuoteAux s.data ++ ['"']) = s.data := congrArg String.data h
  have hlen := congrArg List.length hd
  have haux := goQuoteAux_length s.data
  simp only [List.length_cons, List.length_append, List.length_singleton] at hlen
  omega

theorem goQuote_ne_null (s : String) : goQuote s ≠ "null" := by
  intro h
  have hd : '"' :: (goQuoteAux s.data ++ ['"']) = ['n', 'u', 'l', 'l'] :=
    congrArg String.data h
  have hhead : '"' = 'n' := (List.cons.injEq _ _ _ _ ▸ hd).1
  exact absurd hhead (by decide)

theorem renderCell_eq_self_iff (val : String) :
    renderCell val = val ↔ goParseFloatAccepts val = true := by
  by_cases hacc : goParseFloatAccepts val = true
  · simp [renderCell, hacc]
  · simp only [Bool.not_eq_true] at hacc
    simp only [renderCell, hacc, Bool.false_eq_true, if_false, iff_false]
    by_cases hemp : val = ""
    · subst hemp
      simp
    · simp only [hemp, if_false]
      exact goQuote_ne_self val

theorem renderCell_eq_null_iff (val : String) :
    renderCell val = "null" ↔ val = "" := by
  by_cases hacc : goParseFloatAccepts val = true
  · simp only [renderCell, hacc, if_true]
    constructor
    · intro h
      rw [h] at hacc
      exact absurd hacc (by decide)
    · intro h
      rw [h] at hacc
      exact absurd hacc (by decide)
  · simp only [Bool.not_eq_true] at hacc
    simp only [renderCell, hacc, Bool.false_eq_true, if_false]
    by_cases hemp : val = ""
    · simp [hemp]
    · simp only [hemp, if_false, iff_false]
      exact fun h => absurd h (goQuote_ne_null val)

theorem renderCell_quoted (val : String) (h1 : goParseFloatAccepts val = false)
    (h2 : val ≠ "") : renderCell val = goQuote val := by
  simp [renderCell, h1, h2]

/-- C10: in both orientations of tabular-to-structured output every cell is
rendered by the single `renderCell` path (the columns branch, lines 123-131,
and the records branch, lines 182-188, duplicate the same code): a cell is
emitted verbatim (unquoted) exactly when `strconv.ParseFloat(val, 64)`
accepts it, it is emitted as `null` exactly when it is the empty string, and
otherwise it is emitted `strconv.Quote`d.  Consequently the float-parser
specials `NaN`, `Inf` and signed forms such as `+5` are emitted unquoted
verbatim - shown end to end for both orientations - so the emitted document
is not guaranteed to be well-formed JSON. -/
theorem c10_unquoted_iff_parsefloat :
    (∀ val : String,
      (renderCell val = val ↔ goParseFloatAccepts val = true) ∧
      (renderCell val = "null" ↔ val = "") ∧
      (goParseFloatAccepts val = false → val ≠ "" → renderCell val = goQuote val)) ∧
    (ToJSON (NewReader [["a"], ["NaN"], ["Inf"], ["+5"], [""]])
        JSONOrient.OrientColumns (-1)).out = "\x7b\"a\":[NaN,Inf,+5,null]\x7d" ∧
    (ToJSON (NewReader [["a"], ["NaN"], ["Inf"], ["+5"], [""]])
        JSONOrient.OrientRecords (-1)).out =
      "[\x7b\"a\":NaN\x7d,\x7b\"a\":Inf\x7d,\x7b\"a\":+5\x7d,\x7b\"a\":null\x7d]" :=
  ⟨fun val =>
    ⟨renderCell_eq_self_iff val, renderCell_eq_null_iff val, renderCell_quoted val⟩,
    by decide, by decide⟩

/-- Witness for C10: the theorem applied at the concrete non-numeric,
non-empty cell `x`, whose rendering is therefore the quoted form. -/
theorem c10_unquoted_iff_parsefloat_witness : renderCell "x" = goQuote "x" :=
  (c10_unquoted_iff_parsefloat.1 "x").2.2 (by decide) (by decide)

/-- C1 (code bug): the claim's payload `[{"a":1,"b":2},{"a":4,"b":null}]`,
decoded as `json.Unmarshal` actually decodes it (every number a `float64`),
converts on a fresh part_000 session to `1.000000,2.000000` and `4.000000,`
with no `a,b` header line: the header is missing because this revision
writes it in the locked branch instead of the fresh one, and the integer
cells render through the `case float64` arm's `%f` fixed-point formatting
because the `case int` arm is dead code for decoded payloads.  The older
csvconv.go revision writes the header line on the first conversion but
renders the same `%f` cells, so both revisions miss the claimed
`a,b` / `1,2` / `4,` output, which is exactly the expected-output fixture
of the repository's own `toCSVTests`.  The null cell does render empty, as
claimed. -/
theorem c1_record_payload_actual_output :
    JSONReader.ToCSV NewJSONReader
        (Json.jarr
          [Json.jobj [("a", Json.jfloat 1000000), ("b", Json.jfloat 2000000)],
           Json.jobj [("a", Json.jfloat 4000000), ("b", Json.jnull)]]) ',' =
      (⟨true, ["a", "b"]⟩, Except.ok "1.000000,2.000000\n4.000000,\n") ∧
    CsvconvV0.parseJSONByRecord NewJSONReader
        [[("a", JValue.vfloat 1000000), ("b", JValue.vfloat 2000000)],
         [("a", JValue.vfloat 4000000), ("b", JValue.vnull)]] ',' =
      (⟨true, ["a", "b"]⟩, Except.ok "a,b\n1.000000,2.000000\n4.000000,\n") := by
  exact ⟨by decide, by decide⟩

/-- C2 (code bug): `parseJSONByColumn` never assigns `headersSet`, so after
a first column-oriented conversion on a fresh session the lock is still
disengaged: a second conversion with the extra key `c` succeeds (it should
fail with HeaderMismatch) and a second conversion with the identical key set
re-emits the header line (it should not).  The sessions fed to the second
calls are exactly the session returned by the first call. -/
theorem c2_column_lock_never_engages :
    JSONReader.parseJSONByColumn NewJSONReader
        [("a", [JValue.vint 1, JValue.vint 4]), ("b", [JValue.vint 2, JValue.vint 5])] =
      (⟨false, ["a", "b"]⟩, Except.ok "a,b\n1,2\n4,5\n") ∧
    JSONReader.parseJSONByColumn ⟨false, ["a", "b"]⟩
        [("a", [JValue.vint 1]), ("b", [JValue.vint 2]), ("c", [JValue.vint 3])] =
      (⟨false, ["a", "b", "c"]⟩, Except.ok "a,b,c\n1,2,3\n") ∧
    JSONReader.parseJSONByColumn ⟨false, ["a", "b"]⟩
        [("a", [JValue.vint 7]), ("b", [JValue.vint 8])] =
      (⟨false, ["a", "b"]⟩, Except.ok "a,b\n7,8\n") := by
  decide

/-- C4 (code bug): with column arrays of unequal length, the row loop of
`parseJSONByColumn` tests `len(values) < i` instead of `<= i`, reaches
`values[i]` with `i = len(values)` for the shorter column and panics with an
index out of range; the same payload with equal-length arrays converts
fine. -/
theorem c4_short_column_panics :
    (JSONReader.parseJSONByColumn NewJSONReader
        [("a", [JValue.vint 1, JValue.vint 4]), ("b", [JValue.vint 2])]).2 =
      Except.error GoErr.indexOutOfRange ∧
    (JSONReader.parseJSONByColumn NewJSONReader
        [("a", [JValue.vint 1, JValue.vint 4]),
         ("b", [JValue.vint 2, JValue.vint 5])]).2 =
      Except.ok "a,b\n1,2\n4,5\n" := by
  decide

/-- Counterexample to C3: the column `a` of the document `a / 1 / x`
contains the cell `x`, which `strconv.ParseFloat` rejects, yet the emitted
array is `[1,"x"]` - the numeric cell `1` stays unquoted instead of every
non-empty cell of the column being emitted as a quoted string under the
column's final (String) type state. -/
theorem c3_counterexample_mixed_column :
    (ToJSON (NewReader [["a"], ["1"], ["x"]]) JSONOrient.OrientColumns (-1)).out =
      "\x7b\"a\":[1,\"x\"]\x7d" ∧
    goParseFloatAccepts "x" = false ∧ goParseFloatAccepts "1" = true := by
  decide

theorem observe_rank_le (st : ColTypeState) (v : String) :
    st.rank ≤ (observe st v).rank := by
  unfold observe
  split
  · exact Nat.le_refl _
  split
  · exact Nat.le_refl _
  split
  · split
    · next hst =>
      subst hst
      decide
    · exact Nat.le_refl _
  · cases st <;> decide

theorem observe_str (v : String) :
    observe ColTypeState.str v = ColTypeState.str := by
  unfold observe
  split
  · rfl
  split
  · rfl
  split
  · exact if_neg (by decide)
  · rfl

theorem foldl_observe_rank (l : List String) (st : ColTypeState) :
    st.rank ≤ (l.foldl observe st).rank := by
  induction l generalizing st with
  | nil => simp
  | cons v l ih =>
    simp only [List.foldl_cons]
    exact Nat.le_trans (observe_rank_le st v) (ih (observe st v))

theorem foldl_observe_str (l : List String) :
    l.foldl observe ColTypeState.str = ColTypeState.str := by
  induction l with
  | nil => rfl
  | cons v l ih =>
    simp only [List.foldl_cons, observe_str]
    exact ih

/-- C5 (spec-modelled): the committed column type states over successive
`observe` calls are non-decreasing in the order Integer < Float < String,
the String state is absorbing, and the sequence starts at Integer.  The
source only declares the unused two-value `colType` enum; `observe` is
modelled from spec section 4.1. -/
theorem c5_type_states_monotone (values : List String) (i j : Nat) (hij : i ≤ j) :
    (statesAfter values i).rank ≤ (statesAfter values j).rank ∧
    (statesAfter values i = ColTypeState.str →
      statesAfter values j = ColTypeState.str) ∧
    statesAfter values 0 = ColTypeState.integer := by
  have key : values.take j = values.take i ++ (values.take j).drop i := by
    conv_lhs => rw [← List.take_append_drop i (values.take j)]
    rw [List.take_take, Nat.min_eq_left hij]
  refine ⟨?_, ?_, rfl⟩
  · rw [statesAfter, statesAfter, key, List.foldl_append]
    exact foldl_observe_rank _ _
  · intro h
    rw [statesAfter] at h ⊢
    rw [key, List.foldl_append, h]
    exact foldl_observe_str _

/-- Witness for C5: the theorem applied at a concrete column whose values
promote Integer to Float and then to String. -/
theorem c5_type_states_monotone_witness :
    (statesAfter ["1", "1.5", "x"] 1).rank ≤ (statesAfter ["1", "1.5", "x"] 3).rank ∧
    (statesAfter ["1", "1.5", "x"] 1 = ColTypeState.str →
      statesAfter ["1", "1.5", "x"] 3 = ColTypeState.str) ∧
    statesAfter ["1", "1.5", "x"] 0 = ColTypeState.integer :=
  c5_type_states_monotone ["1", "1.5", "x"] 1 3 (by decide)

/-- Counterexample to C9: the decoded form of the record payload with the
single row map holding keys `a` and `b` is a Go map, whose iteration order
is unspecified; the two possible enumeration orders of that one map give
different column orders, so the output is not determined by the payload and
two runs of the same conversion need not agree. -/
theorem c9_counterexample_map_iteration_order :
    (JSONReader.parseJSONByRecord NewJSONReader
        [[("a", JValue.vint 1), ("b", JValue.vint 2)]] ',').2 =
      Except.ok "1,2\n" ∧
    (JSONReader.parseJSONByRecord NewJSONReader
        [[("b", JValue.vint 2), ("a", JValue.vint 1)]] ',').2 =
      Except.ok "2,1\n" := by
  decide

theorem contains_append_singleton (acc : List String) (k x : String) :
    (acc ++ [k]).contains x = (acc.contains x || x == k) := by
  induction acc with
  | nil =>
    simp only [List.nil_append, List.contains_cons]
    by_cases h : x = k <;> simp [h]
  | cons a l ih =>
    simp only [List.cons_append, List.contains_cons, ih, Bool.or_assoc]

theorem foldl_appendIfMissing (l : List String) :
    ∀ acc : List String, l.foldl appendIfMissing acc =
      acc ++ firstSeenSpec (l.filter fun x => ! acc.contains x) := by
  induction l with
  | nil =>
    intro acc
    simp [firstSeenSpec]
  | cons k ks ih =>
    intro acc
    rw [List.foldl_cons]
    by_cases hk : k ∈ acc
    · have h1 : appendIfMissing acc k = acc := by simp [appendIfMissing, hk]
      rw [h1, ih acc]
      have h2 : ((k :: ks).filter fun x => ! acc.contains x) =
          ks.filter fun x => ! acc.contains x := by
        simp [List.filter_cons, hk]
      rw [h2]
    · have h1 : appendIfMissing acc k = acc ++ [k] := by simp [appendIfMissing, hk]
      rw [h1, ih (acc ++ [k])]
      have h2 : ((k :: ks).filter fun x => ! acc.contains x) =
          k :: (ks.filter fun x => ! acc.contains x) := by
        simp [List.filter_cons, hk]
      rw [h2]
      have h3 : (ks.filter fun x => ! (acc ++ [k]).contains x) =
          (ks.filter fun x => ! acc.contains x).filter fun x => x ≠ k := by
        rw [List.filter_filter]
        refine List.filter_congr ?_
        intro x _
        by_cases hx : x ∈ acc <;> by_cases hxk : x = k <;>
          simp [contains_append_singleton, hx, hxk]
      rw [h3, firstSeenSpec, List.append_cons]
      simp

theorem collectHeaders_eq_foldl (v : List (List (String × JValue))) :
    collectHeaders v = (allKeys v).foldl appendIfMissing [] := by
  rw [collectHeaders, allKeys, List.foldl_flatten, List.foldl_map]
  congr 1
  funext hs record
  rw [List.foldl_map]

/-- C9 amended: with the iteration order of each decoded row map fixed (the
order of its association list), `parseJSONByRecord` is a pure function -
converting the same decoded input twice on fresh sessions gives identical
results - and the emitted column order is exactly the first-seen order of
the keys across the row maps under that iteration order.  What the original
claim adds - that this order is determined by the payload text - fails, as
Go map iteration order is unspecified (see the counterexample). -/
theorem c9_amended_first_seen_order (v : List (List (String × JValue))) (sep : Char) :
    JSONReader.parseJSONByRecord NewJSONReader v sep =
      JSONReader.parseJSONByRecord NewJSONReader v sep ∧
    collectHeaders v = firstSeenSpec (allKeys v) := by
  refine ⟨rfl, ?_⟩
  rw [collectHeaders_eq_foldl, foldl_appendIfMissing]
  simp

theorem parseJSONByRecord_err_cases (d : JSONReader) (v : List (List (String × JValue)))
    (sep : Char) (e : GoErr)
    (h : (JSONReader.parseJSONByRecord d v sep).2 = Except.error e) :
    e = GoErr.wrongKeys := by
  simp only [JSONReader.parseJSONByRecord] at h
  split at h
  · exact absurd h (by simp)
  · split at h
    · exact absurd h (by simp)
    · have h2 : Except.error GoErr.wrongKeys = Except.error e := h
      injection h2 with h3
      exact h3.symm

theorem colCell_err (v : List (String × List JValue)) (col : String) (i : Nat)
    (e : GoErr) (h : colCell v col i = Except.error e) :
    e = GoErr.indexOutOfRange := by
  simp only [colCell] at h
  split at h
  · simp at h
  · split at h
    · simp at h
    · injection h with h1
      exact h1.symm

theorem buildRow_err (v : List (String × List JValue)) (colnames : List String) :
    ∀ (i : Nat) (e : GoErr), buildRow v colnames i = Except.error e →
      e = GoErr.indexOutOfRange := by
  induction colnames with
  | nil =>
    intro i e h
    simp [buildRow] at h
  | cons col rest ih =>
    intro i e h
    simp only [buildRow] at h
    cases hc : colCell v col i with
    | error e1 =>
      rw [hc] at h
      injection h with h1
      rw [← h1]
      exact colCell_err v col i e1 hc
    | ok s =>
      rw [hc] at h
      cases hb : buildRow v rest i with
      | error e2 =>
        rw [hb] at h
        simp only [Except.map] at h
        injection h with h1
        rw [← h1]
        exact ih i e2 hb
      | ok cells =>
        rw [hb] at h
        simp [Except.map] at h

theorem buildRowsAux_err (v : List (String × List JValue)) (colnames : List String) :
    ∀ (remaining i : Nat) (e : GoErr), buildRowsAux v colnames i remaining = Except.error e →
      e = GoErr.indexOutOfRange := by
  intro remaining
  induction remaining with
  | zero =>
    intro i e h
    simp [buildRowsAux] at h
  | succ rem ih =>
    intro i e h
    simp only [buildRowsAux] at h
    cases hr : buildRow v colnames i with
    | error e1 =>
      rw [hr] at h
      injection h with h1
      rw [← h1]
      exact buildRow_err v colnames i e1 hr
    | ok cells =>
      rw [hr] at h
      cases ha : buildRowsAux v colnames (i + 1) rem with
      | error e2 =>
        rw [ha] at h
        simp only [Except.map] at h
        injection h with h1
        rw [← h1]
        exact ih (i + 1) e2 ha
      | ok s =>
        rw [ha] at h
        simp [Except.map] at h

theorem parseJSONByColumn_not_shape (d : JSONReader) (v : List (String × List JValue)) :
    (JSONReader.parseJSONByColumn d v).2 ≠ Except.error GoErr.unrecognizedShape := by
  intro h
  simp only [JSONReader.parseJSONByColumn] at h
  split at h
  · split at h
    · have h2 : Except.error GoErr.keyNotExpected =
          Except.error GoErr.unrecognizedShape := h
      injection h2 with h3
      exact absurd h3 (by decide)
    · split at h
      · have h2 : Except.error GoErr.missingKeys =
            Except.error GoErr.unrecognizedShape := h
        injection h2 with h3
        exact absurd h3 (by decide)
      · have h2 : buildRowsAux v d.expectedHeaders 0
            (v.foldl (fun m kv => max m kv.2.length) 0) =
            Except.error GoErr.unrecognizedShape := h
        have h3 := buildRowsAux_err v d.expectedHeaders
          (v.foldl (fun m kv => max m kv.2.length) 0) 0 GoErr.unrecognizedShape h2
        exact absurd h3 (by decide)
  · have h2 : (buildRowsAux v (v.map Prod.fst) 0
        (v.foldl (fun m kv => max m kv.2.length) 0)).map
          (fun s => csvLine ',' (v.map Prod.fst) ++ s) =
        Except.error GoErr.unrecognizedShape := h
    cases hb : buildRowsAux v (v.map Prod.fst) 0 (v.foldl (fun m kv => max m kv.2.length) 0) with
    | error e1 =>
      rw [hb] at h2
      simp only [Except.map] at h2
      injection h2 with h3
      have h4 := buildRowsAux_err v (v.map Prod.fst)
        (v.foldl (fun m kv => max m kv.2.length) 0) 0 e1 hb
      rw [h4] at h3
      exact absurd h3 (by decide)
    | ok s =>
      rw [hb] at h2
      simp [Except.map] at h2

/-- C8: `ToCSV` tries the record-array decoding first and the column-map
decoding second, and returns the "does not conform" (UnrecognizedShape)
error exactly when both decodings fail - the record and column parsers can
fail, but never with that error. -/
theorem c8_shape_detection (d : JSONReader) (payload : Json) (sep : Char) :
    ((JSONReader.ToCSV d payload sep).2 = Except.error GoErr.unrecognizedShape ↔
      asRecordArray payload = none ∧ asColumnMap payload = none) ∧
    (∀ byRecord, asRecordArray payload = some byRecord →
      JSONReader.ToCSV d payload sep = JSONReader.parseJSONByRecord d byRecord sep) := by
  constructor
  · constructor
    · intro h
      cases hra : asRecordArray payload with
      | some br =>
        simp only [JSONReader.ToCSV, hra] at h
        have := parseJSONByRecord_err_cases d br sep GoErr.unrecognizedShape h
        exact absurd this (by decide)
      | none =>
        cases hcm : asColumnMap payload with
        | some bc =>
          simp only [JSONReader.ToCSV, hra, hcm] at h
          exact absurd h (parseJSONByColumn_not_shape d bc)
        | none => exact ⟨rfl, rfl⟩
    · intro hpair
      simp [JSONReader.ToCSV, hpair.1, hpair.2]
  · intro br hbr
    simp [JSONReader.ToCSV, hbr]

/-- Witness for C8: the theorem applied at the `null` payload, which
decodes successfully as a (zero-row) record array and is therefore routed
to the record parser. -/
theorem c8_shape_detection_witness :
    JSONReader.ToCSV NewJSONReader Json.jnull ',' =
      JSONReader.parseJSONByRecord NewJSONReader [] ',' :=
  (c8_shape_detection NewJSONReader Json.jnull ',').2 [] (by decide)

theorem setHeader_fresh (hdr : List String) (rows : List (List String)) :
    (Reader.setHeader (NewReader (hdr :: rows))).2 =
      ⟨⟨rows, (hdr.length : Int)⟩, true, hdr.map goQuote, hdr.length⟩ := by
  simp [NewReader, Reader.setHeader, CsvReader.read]

theorem Reader_read_eof (n : Int) (h : List String) (nc : Nat) :
    Reader.read ⟨⟨[], n⟩, true, h, nc⟩ =
      (Except.error GoErr.eof, ⟨⟨[], n⟩, true, h, nc⟩) := by
  simp [Reader.read, CsvReader.read]

theorem Reader_read_ok (rows : List (List String)) (rec : List String) (n : Nat)
    (hn : 0 < n) (hl : rec.length = n) (h : List String) (nc : Nat) :
    Reader.read ⟨⟨rec :: rows, (n : Int)⟩, true, h, nc⟩ =
      (Except.ok rec, ⟨⟨rows, (n : Int)⟩, true, h, nc⟩) := by
  have h1 : (0 : Int) < (n : Int) := by exact_mod_cast hn
  have h2 : (rec.length : Int) = (n : Int) := by exact_mod_cast hl
  simp [Reader.read, CsvReader.read, h1, h2]

theorem Reader_read_bad (rows : List (List String)) (rec : List String) (n : Nat)
    (hn : 0 < n) (hl : rec.length ≠ n) (h : List String) (nc : Nat) :
    Reader.read ⟨⟨rec :: rows, (n : Int)⟩, true, h, nc⟩ =
      (Except.error GoErr.errFieldCount, ⟨⟨rows, (n : Int)⟩, true, h, nc⟩) := by
  have h1 : (0 : Int) < (n : Int) := by exact_mod_cast hn
  have h2 : (rec.length : Int) ≠ (n : Int) := by exact_mod_cast hl
  simp [Reader.read, CsvReader.read, h1, h2]

theorem colsLoop_consume (n : Nat) (hn : 0 < n) (h : List String) (nc : Nat) :
    ∀ (rows : List (List String)) (fuel k : Nat) (data : List (List String)),
      rows.length ≤ fuel → 0 < k + rows.length → (∀ r ∈ rows, r.length = n) →
      colsLoop fuel ⟨⟨rows, (n : Int)⟩, true, h, nc⟩ k data =
        (k + rows.length, rows.foldl updateData data, none,
          ⟨⟨[], (n : Int)⟩, true, h, nc⟩) := by
  intro rows
  induction rows with
  | nil =>
    intro fuel k data _ hpos _
    simp only [List.length_nil, Nat.add_zero] at hpos
    cases fuel with
    | zero => simp [colsLoop]
    | succ f =>
      have hk : ¬ (k = 0 ∨ GoErr.eof ≠ GoErr.eof) := by
        simp
        omega
      simp only [colsLoop, Reader_read_eof]
      simp [hk]
      omega
  | cons rec rest ih =>
    intro fuel k data hfuel hpos harr
    cases fuel with
    | zero => simp at hfuel
    | succ f =>
      have hlen : rec.length = n := harr rec (List.mem_cons_self _ _)
      simp only [colsLoop, Reader_read_ok rest rec n hn hlen h nc]
      rw [ih f (k + 1) (updateData data rec) (by simpa using hfuel) (by omega)
        (fun r hr => harr r (List.mem_cons_of_mem _ hr))]
      simp only [List.foldl_cons, List.length_cons]
      have harith : k + 1 + rest.length = k + (rest.length + 1) := by omega
      rw [harith]

theorem colsLoop_empty_input (n : Nat) (h : List String) (nc : Nat)
    (fuel : Nat) (hfuel : 0 < fuel) (data : List (List String)) :
    colsLoop fuel ⟨⟨[], (n : Int)⟩, true, h, nc⟩ 0 data =
      (0, data, some GoErr.eof, ⟨⟨[], (n : Int)⟩, true, h, nc⟩) := by
  cases fuel with
  | zero => omega
  | succ f =>
    simp only [colsLoop, Reader_read_eof]
    simp

theorem colsLoop_arity_abort (n : Nat) (hn : 0 < n) (h : List String) (nc : Nat)
    (bad : List String) (hbad : bad.length ≠ n) (rest : List (List String)) :
    ∀ (good : List (List String)) (fuel k : Nat) (data : List (List String)),
      good.length < fuel → (∀ r ∈ good, r.length = n) →
      colsLoop fuel ⟨⟨good ++ bad :: rest, (n : Int)⟩, true, h, nc⟩ k data =
        (k + good.length, good.foldl updateData data, some GoErr.errFieldCount,
          ⟨⟨rest, (n : Int)⟩, true, h, nc⟩) := by
  intro good
  induction good with
  | nil =>
    intro fuel k data hfuel _
    cases fuel with
    | zero => omega
    | succ f =>
      simp only [List.nil_append, colsLoop, Reader_read_bad rest bad n hn hbad h nc]
      simp
  | cons rec grest ih =>
    intro fuel k data hfuel harr
    cases fuel with
    | zero => omega
    | succ f =>
      have hlen : rec.length = n := harr rec (List.mem_cons_self _ _)
      simp only [List.cons_append, colsLoop,
        Reader_read_ok (grest ++ bad :: rest) rec n hn hlen h nc]
      rw [ih f (k + 1) (updateData data rec) (by simp at hfuel; omega)
        (fun r hr => harr r (List.mem_cons_of_mem _ hr))]
      simp only [List.foldl_cons, List.length_cons]
      have harith : k + 1 + grest.length = k + (grest.length + 1) := by omega
      rw [harith]

theorem recsLoop_consume (hs : List String) (n : Nat) (hn : 0 < n) (h : List String)
    (nc : Nat) :
    ∀ (rows : List (List String)) (fuel k : Nat) (acc : String),
      rows.length ≤ fuel → 0 < k + rows.length → (∀ r ∈ rows, r.length = n) →
      ∃ t : String,
        recsLoop hs fuel ⟨⟨rows, (n : Int)⟩, true, h, nc⟩ k acc =
          (k + rows.length, t, none, ⟨⟨[], (n : Int)⟩, true, h, nc⟩) := by
  intro rows
  induction rows with
  | nil =>
    intro fuel k acc _ hpos _
    refine ⟨acc, ?_⟩
    simp only [List.length_nil, Nat.add_zero] at hpos
    cases fuel with
    | zero => simp [recsLoop]
    | succ f =>
      have hk : ¬ (k = 0 ∨ GoErr.eof ≠ GoErr.eof) := by
        simp
        omega
      simp only [recsLoop, Reader_read_eof]
      simp [hk]
      omega
  | cons rec rest ih =>
    intro fuel k acc hfuel hpos harr
    cases fuel with
    | zero => simp at hfuel
    | succ f =>
      have hlen : rec.length = n := harr rec (List.mem_cons_self _ _)
      obtain ⟨t, ht⟩ := ih f (k + 1)
        (acc ++ (if k = 0 then "" else ",") ++ emitRec hs rec)
        (by simpa using hfuel) (by omega)
        (fun r hr => harr r (List.mem_cons_of_mem _ hr))
      refine ⟨t, ?_⟩
      simp only [recsLoop, Reader_read_ok rest rec n hn hlen h nc]
      rw [ht]
      simp only [List.length_cons]
      have harith : k + 1 + rest.length = k + (rest.length + 1) := by omega
      rw [harith]

theorem recsLoop_empty_input (hs : List String) (n : Nat) (h : List String) (nc : Nat)
    (fuel : Nat) (hfuel : 0 < fuel) (acc : String) :
    recsLoop hs fuel ⟨⟨[], (n : Int)⟩, true, h, nc⟩ 0 acc =
      (0, acc, some GoErr.eof, ⟨⟨[], (n : Int)⟩, true, h, nc⟩) := by
  cases fuel with
  | zero => omega
  | succ f =>
    simp only [recsLoop, Reader_read_eof]
    simp

theorem recsLoop_arity_abort (hs : List String) (n : Nat) (hn : 0 < n)
    (h : List String) (nc : Nat) (bad : List String) (hbad : bad.length ≠ n)
    (rest : List (List String)) :
    ∀ (good : List (List String)) (fuel k : Nat) (acc : String),
      good.length < fuel → (∀ r ∈ good, r.length = n) →
      ∃ t : String,
        recsLoop hs fuel ⟨⟨good ++ bad :: rest, (n : Int)⟩, true, h, nc⟩ k acc =
          (k + good.length, t, some GoErr.errFieldCount,
            ⟨⟨rest, (n : Int)⟩, true, h, nc⟩) := by
  intro good
  induction good with
  | nil =>
    intro fuel k acc hfuel _
    refine ⟨acc, ?_⟩
    cases fuel with
    | zero => omega
    | succ f =>
      simp only [List.nil_append, recsLoop, Reader_read_bad rest bad n hn hbad h nc]
      simp
  | cons rec grest ih =>
    intro fuel k acc hfuel harr
    cases fuel with
    | zero => omega
    | succ f =>
      have hlen : rec.length = n := harr rec (List.mem_cons_self _ _)
      obtain ⟨t, ht⟩ := ih f (k + 1)
        (acc ++ (if k = 0 then "" else ",") ++ emitRec hs rec)
        (by simp at hfuel; omega)
        (fun r hr => harr r (List.mem_cons_of_mem _ hr))
      refine ⟨t, ?_⟩
      simp only [List.cons_append, recsLoop,
        Reader_read_ok (grest ++ bad :: rest) rec n hn hlen h nc]
      rw [ht]
      simp only [List.length_cons]
      have harith : k + 1 + grest.length = k + (grest.length + 1) := by omega
      rw [harith]

/-- C6: with a negative row limit the conversion consumes rows until
end-of-input (the limit becomes `math.MaxInt64`, so documents shorter than
that bound are consumed in full); end-of-input before any data row surfaces
as the `io.EOF` error (the spec's EmptyInput) with a zero row count, while
end-of-input after at least one row is not surfaced as an error and the
number of consumed rows is returned - in both orientations. -/
theorem c6_row_limit_and_eof (orient : JSONOrient) (hdr : List String)
    (rows : List (List String)) (nRows : Int) (hc : 0 < hdr.length)
    (harr : ∀ r ∈ rows, r.length = hdr.length) (hlen : rows.length ≤ maxInt64)
    (hneg : nRows < 0) :
    (rows = [] → (ToJSON (NewReader (hdr :: rows)) orient nRows).nRead = 0 ∧
      (ToJSON (NewReader (hdr :: rows)) orient nRows).err = some GoErr.eof) ∧
    (rows ≠ [] → (ToJSON (NewReader (hdr :: rows)) orient nRows).nRead = rows.length ∧
      (ToJSON (NewReader (hdr :: rows)) orient nRows).err = none) := by
  have hfuel : (if nRows < 0 then maxInt64 else nRows.toNat) = maxInt64 := if_pos hneg
  have hset := setHeader_fresh hdr rows
  have hfpos : 0 < maxInt64 := by norm_num [maxInt64]
  cases orient with
  | OrientColumns =>
    cases rows with
    | nil =>
      have hloop := colsLoop_empty_input hdr.length (hdr.map goQuote) hdr.length
        maxInt64 hfpos (List.replicate hdr.length [])
      have hstruct : toJSONStruct (NewReader (hdr :: [])) JSONOrient.OrientColumns nRows =
          ⟨0, "", some GoErr.eof,
            ⟨⟨[], (hdr.length : Int)⟩, true, hdr.map goQuote, hdr.length⟩⟩ := by
        simp only [toJSONStruct, hfuel, hset, hloop]
      have hval : ToJSON (NewReader (hdr :: [])) JSONOrient.OrientColumns nRows =
          ⟨0, "", some GoErr.eof,
            ⟨⟨[], (hdr.length : Int)⟩, true, hdr.map goQuote, hdr.length⟩⟩ := by
        simp only [ToJSON, hstruct]
      exact ⟨fun _ => by rw [hval]; exact ⟨rfl, rfl⟩, fun hne => absurd rfl hne⟩
    | cons r rs =>
      have hloop := colsLoop_consume hdr.length hc (hdr.map goQuote) hdr.length
        (r :: rs) maxInt64 0 (List.replicate hdr.length []) hlen (by simp) harr
      have hstruct : toJSONStruct (NewReader (hdr :: (r :: rs)))
          JSONOrient.OrientColumns nRows =
          ⟨(r :: rs).length,
            emitCols (hdr.map goQuote)
              ((r :: rs).foldl updateData (List.replicate hdr.length [])),
            none, ⟨⟨[], (hdr.length : Int)⟩, true, hdr.map goQuote, hdr.length⟩⟩ := by
        simp only [toJSONStruct, hfuel, hset, hloop, Nat.zero_add]
      have hval : ToJSON (NewReader (hdr :: (r :: rs))) JSONOrient.OrientColumns nRows =
          ⟨(r :: rs).length,
            emitCols (hdr.map goQuote)
              ((r :: rs).foldl updateData (List.replicate hdr.length [])),
            none, ⟨⟨[], (hdr.length : Int)⟩, true, hdr.map goQuote, hdr.length⟩⟩ := by
        simp only [ToJSON, hstruct]
      exact ⟨fun heq => absurd heq (by simp), fun _ => by rw [hval]; exact ⟨rfl, rfl⟩⟩
  | OrientRecords =>
    cases rows with
    | nil =>
      have hloop := recsLoop_empty_input (hdr.map goQuote) hdr.length
        (hdr.map goQuote) hdr.length maxInt64 hfpos ""
      have hstruct : toJSONStruct (NewReader (hdr :: [])) JSONOrient.OrientRecords nRows =
          ⟨0, "[", some GoErr.eof,
            ⟨⟨[], (hdr.length : Int)⟩, true, hdr.map goQuote, hdr.length⟩⟩ := by
        simp only [toJSONStruct, hfuel, hset, hloop]
        rfl
      have hval : ToJSON (NewReader (hdr :: [])) JSONOrient.OrientRecords nRows =
          ⟨0, "", some GoErr.eof,
            ⟨⟨[], (hdr.length : Int)⟩, true, hdr.map goQuote, hdr.length⟩⟩ := by
        simp only [ToJSON, hstruct]
      exact ⟨fun _ => by rw [hval]; exact ⟨rfl, rfl⟩, fun hne => absurd rfl hne⟩
    | cons r rs =>
      obtain ⟨t, ht⟩ := recsLoop_consume (hdr.map goQuote) hdr.length hc
        (hdr.map goQuote) hdr.length (r :: rs) maxInt64 0 "" hlen (by simp) harr
      have hstruct : toJSONStruct (NewReader (hdr :: (r :: rs)))
          JSONOrient.OrientRecords nRows =
          ⟨(r :: rs).length, "[" ++ t ++ "]", none,
            ⟨⟨[], (hdr.length : Int)⟩, true, hdr.map goQuote, hdr.length⟩⟩ := by
        simp only [toJSONStruct, hfuel, hset, ht, Nat.zero_add]
      have hval : ToJSON (NewReader (hdr :: (r :: rs))) JSONOrient.OrientRecords nRows =
          ⟨(r :: rs).length, "[" ++ t ++ "]", none,
            ⟨⟨[], (hdr.length : Int)⟩, true, hdr.map goQuote, hdr.length⟩⟩ := by
        simp only [ToJSON, hstruct]
      exact ⟨fun heq => absurd heq (by simp), fun _ => by rw [hval]; exact ⟨rfl, rfl⟩⟩

/-- Witness for C6: the theorem applied to the repository's own two-row test
document in both orientations, and to a header-only document. -/
theorem c6_row_limit_and_eof_witness :
    ((["a", "b"] : List String) ≠ [] →
      (ToJSON (NewReader [["a", "b"], ["1", "2"], ["4", ""]])
        JSONOrient.OrientRecords (-1)).nRead = 2 ∧
      (ToJSON (NewReader [["a", "b"], ["1", "2"], ["4", ""]])
        JSONOrient.OrientRecords (-1)).err = none) ∧
    ((ToJSON (NewReader [["a", "b"]]) JSONOrient.OrientColumns (-1)).nRead = 0 ∧
      (ToJSON (NewReader [["a", "b"]]) JSONOrient.OrientColumns (-1)).err =
        some GoErr.eof) := by
  constructor
  · intro _
    exact (c6_row_limit_and_eof JSONOrient.OrientRecords ["a", "b"]
      [["1", "2"], ["4", ""]] (-1) (by decide) (by decide) (by decide) (by decide)).2
      (by decide)
  · exact (c6_row_limit_and_eof JSONOrient.OrientColumns ["a", "b"] [] (-1)
      (by decide) (by decide) (by decide) (by decide)).1 rfl

/-- C7: a data row whose field count differs from the header length makes
the conversion fail with `csv.ErrFieldCount` (the spec's ArityMismatch) at
the first such row, in either orientation; `ToJSON` then returns zero output
bytes together with the number of rows consumed before the failure. -/
theorem c7_arity_mismatch (orient : JSONOrient) (hdr : List String)
    (good : List (List String)) (bad : List String) (rest : List (List String))
    (nRows : Int) (hc : 0 < hdr.length) (hgood : ∀ r ∈ good, r.length = hdr.length)
    (hbad : bad.length ≠ hdr.length) (hfuel : good.length < maxInt64)
    (hneg : nRows < 0) :
    ToJSON (NewReader (hdr :: (good ++ bad :: rest))) orient nRows =
      ⟨good.length, "", some GoErr.errFieldCount,
        ⟨⟨rest, (hdr.length : Int)⟩, true, hdr.map goQuote, hdr.length⟩⟩ := by
  have hfuel0 : (if nRows < 0 then maxInt64 else nRows.toNat) = maxInt64 := if_pos hneg
  have hset := setHeader_fresh hdr (good ++ bad :: rest)
  cases orient with
  | OrientColumns =>
    have hloop := colsLoop_arity_abort hdr.length hc (hdr.map goQuote) hdr.length
      bad hbad rest good maxInt64 0 (List.replicate hdr.length []) hfuel hgood
    have hstruct : toJSONStruct (NewReader (hdr :: (good ++ bad :: rest)))
        JSONOrient.OrientColumns nRows =
        ⟨good.length, "", some GoErr.errFieldCount,
          ⟨⟨rest, (hdr.length : Int)⟩, true, hdr.map goQuote, hdr.length⟩⟩ := by
      simp only [toJSONStruct, hfuel0, hset, hloop, Nat.zero_add]
    simp only [ToJSON, hstruct]
  | OrientRecords =>
    obtain ⟨t, ht⟩ := recsLoop_arity_abort (hdr.map goQuote) hdr.length hc
      (hdr.map goQuote) hdr.length bad hbad rest good maxInt64 0 "" hfuel hgood
    have hstruct : toJSONStruct (NewReader (hdr :: (good ++ bad :: rest)))
        JSONOrient.OrientRecords nRows =
        ⟨good.length, "[" ++ t, some GoErr.errFieldCount,
          ⟨⟨rest, (hdr.length : Int)⟩, true, hdr.map goQuote, hdr.length⟩⟩ := by
      simp only [toJSONStruct, hfuel0, hset, ht, Nat.zero_add]
    simp only [ToJSON, hstruct]

/-- Witness for C7: the theorem applied to the repository's own bad-arity
test document, where exactly one row is consumed before the failure. -/
theorem c7_arity_mismatch_witness :
    ToJSON (NewReader [["a", "b", "c"], ["1", "2", "3"], ["4", ""]])
        JSONOrient.OrientColumns (-1) =
      ⟨[["1", "2", "3"]].length, "", some GoErr.errFieldCount,
        ⟨⟨[], ((["a", "b", "c"] : List String).length : Int)⟩, true,
          (["a", "b", "c"] : List String).map goQuote,
          (["a", "b", "c"] : List String).length⟩⟩ :=
  c7_arity_mismatch JSONOrient.OrientColumns ["a", "b", "c"] [["1", "2", "3"]]
    ["4", ""] [] (-1) (by decide) (by decide) (by decide) (by decide) (by decide)

theorem updateData_length : ∀ (data : List (List String)) (rec : List String),
    rec.length = data.length → (updateData data rec).length = data.length := by
  intro data
  induction data with
  | nil =>
    intro rec h
    cases rec with
    | nil => rfl
    | cons c cs => simp at h
  | cons col cols ih =>
    intro rec h
    cases rec with
    | nil => rfl
    | cons c cs =>
      have h2 : cs.length = cols.length := by simpa using h
      simp [updateData, ih cs h2]

theorem updateData_getD : ∀ (data : List (List String)) (rec : List String) (j : Nat),
    rec.length = data.length → j < data.length →
    (updateData data rec).getD j [] = data.getD j [] ++ [rec.getD j ""] := by
  intro data
  induction data with
  | nil =>
    intro rec j _ hj
    simp at hj
  | cons col cols ih =>
    intro rec j h hj
    cases rec with
    | nil => simp at h
    | cons c cs =>
      have h2 : cs.length = cols.length := by simpa using h
      cases j with
      | zero => simp [updateData]
      | succ j2 =>
        simp only [updateData, List.getD_cons_succ]
        exact ih cs j2 h2 (by simpa using hj)

theorem range_map_getD (l : List (List String)) :
    (List.range l.length).map (fun j => l.getD j []) = l := by
  induction l with
  | nil => simp
  | cons x xs ih =>
    rw [List.length_cons, List.range_succ_eq_map]
    simp only [List.map_cons, List.getD_cons_zero, List.map_map]
    congr 1

theorem foldl_updateData_eq : ∀ (rows : List (List String)) (init : List (List String)),
    (∀ r ∈ rows, r.length = init.length) →
    rows.foldl updateData init =
      (List.range init.length).map fun j =>
        init.getD j [] ++ rows.map fun r => r.getD j "" := by
  intro rows
  induction rows with
  | nil =>
    intro init _
    simp only [List.foldl_nil, List.map_nil, List.append_nil]
    exact (range_map_getD init).symm
  | cons r rs ih =>
    intro init harr
    have hr : r.length = init.length := harr r (List.mem_cons_self _ _)
    have hlen := updateData_length init r hr
    rw [List.foldl_cons, ih (updateData init r)
      (fun x hx => (harr x (List.mem_cons_of_mem _ hx)).trans hlen.symm)]
    rw [hlen]
    refine List.map_congr_left ?_
    intro j hj
    have hj2 : j < init.length := List.mem_range.mp hj
    rw [updateData_getD init r j hr hj2]
    simp [List.append_assoc]

theorem getD_replicate_nil : ∀ (n j : Nat),
    (List.replicate n ([] : List String)).getD j [] = [] := by
  intro n
  induction n with
  | zero =>
    intro j
    simp
  | succ m ih =>
    intro j
    cases j with
    | zero => rfl
    | succ j2 =>
      rw [List.replicate_succ, List.getD_cons_succ]
      exact ih j2

theorem foldl_updateData_replicate (rows : List (List String)) (n : Nat)
    (harr : ∀ r ∈ rows, r.length = n) :
    rows.foldl updateData (List.replicate n []) = columnsOf n rows := by
  rw [foldl_updateData_eq rows (List.replicate n [])
    (by intro r hr; simp [harr r hr])]
  simp only [List.length_replicate, columnsOf]
  refine List.map_congr_left ?_
  intro j _
  rw [getD_replicate_nil]
  simp

/-- C3 amended: the columns orientation buffers all raw cells and then emits
each cell of each column independently through `renderCell` - the emitted
output is exactly the per-cell rendering of the transposed row range
(`emitCols` over `columnsOf`), with no per-column final type state: a cell
that parses as a float is emitted unquoted even when another cell of the
same column does not parse. -/
theorem c3_amended_per_cell_column_emission (hdr : List String)
    (rows : List (List String)) (nRows : Int) (hc : 0 < hdr.length)
    (harr : ∀ r ∈ rows, r.length = hdr.length) (hlen : rows.length ≤ maxInt64)
    (hne : rows ≠ []) (hneg : nRows < 0) :
    ToJSON (NewReader (hdr :: rows)) JSONOrient.OrientColumns nRows =
      ⟨rows.length, emitCols (hdr.map goQuote) (columnsOf hdr.length rows), none,
        ⟨⟨[], (hdr.length : Int)⟩, true, hdr.map goQuote, hdr.length⟩⟩ := by
  have hfuel : (if nRows < 0 then maxInt64 else nRows.toNat) = maxInt64 := if_pos hneg
  have hset := setHeader_fresh hdr rows
  cases rows with
  | nil => exact absurd rfl hne
  | cons r rs =>
    have hloop := colsLoop_consume hdr.length hc (hdr.map goQuote) hdr.length
      (r :: rs) maxInt64 0 (List.replicate hdr.length []) hlen (by simp) harr
    have htrans := foldl_updateData_replicate (r :: rs) hdr.length harr
    have hstruct : toJSONStruct (NewReader (hdr :: (r :: rs)))
        JSONOrient.OrientColumns nRows =
        ⟨(r :: rs).length,
          emitCols (hdr.map goQuote) (columnsOf hdr.length (r :: rs)), none,
          ⟨⟨[], (hdr.length : Int)⟩, true, hdr.map goQuote, hdr.length⟩⟩ := by
      simp only [toJSONStruct, hfuel, hset, hloop, Nat.zero_add, htrans]
    simp only [ToJSON, hstruct]

/-- Witness for C3's amended theorem: applied at the mixed column `1`, `x`,
whose emission renders the two cells independently. -/
theorem c3_amended_per_cell_column_emission_witness :
    ToJSON (NewReader [["a"], ["1"], ["x"]]) JSONOrient.OrientColumns (-1) =
      ⟨[["1"], ["x"]].length,
        emitCols ((["a"] : List String).map goQuote)
          (columnsOf (["a"] : List String).length [["1"], ["x"]]),
        none, ⟨⟨[], ((["a"] : List String).length : Int)⟩, true,
          (["a"] : List String).map goQuote, (["a"] : List String).length⟩⟩ :=
  c3_amended_per_cell_column_emission ["a"] [["1"], ["x"]] (-1) (by decide)
    (by decide) (by decide) (by decide) (by decide)

/-- The repository's own `toJSONTests` fixtures replayed on the embedding:
the two-row null-cell document in both orientations, and the bad-arity
document. -/
theorem toJSON_repo_test_fixtures :
    ToJSON (NewReader [["a", "b"], ["1", "2"], ["4", ""]])
        JSONOrient.OrientColumns (-1) =
      ⟨2, "\x7b\"a\":[1,4],\"b\":[2,null]\x7d", none,
        ⟨⟨[], 2⟩, true, ["\"a\"", "\"b\""], 2⟩⟩ ∧
    (ToJSON (NewReader [["a", "b"], ["1", "2"], ["4", ""]])
        JSONOrient.OrientRecords (-1)).out =
      "[\x7b\"a\":1,\"b\":2\x7d,\x7b\"a\":4,\"b\":null\x7d]" ∧
    ToJSON (NewReader [["a", "b", "c"], ["1", "2", "3"], ["4", ""]])
        JSONOrient.OrientColumns (-1) =
      ⟨1, "", some GoErr.errFieldCount,
        ⟨⟨[], 3⟩, true, ["\"a\"", "\"b\"", "\"c\""], 3⟩⟩ := by
  refine ⟨by decide, by decide, by decide⟩

/-- Spot checks of the `strconv.ParseFloat` acceptance model on the corner
cases of its syntax (specials, signs, exponents, hex floats, underscores). -/
theorem goParseFloatAccepts_spot_checks :
    goParseFloatAccepts "NaN" = true ∧ goParseFloatAccepts "Inf" = true ∧
    goParseFloatAccepts "+Inf" = true ∧ goParseFloatAccepts "+NaN" = false ∧
    goParseFloatAccepts "+5" = true ∧ goParseFloatAccepts "1.5e3" = true ∧
    goParseFloatAccepts "0x1p2" = true ∧ goParseFloatAccepts "0x1" = false ∧
    goParseFloatAccepts "1_0" = true ∧ goParseFloatAccepts "_1" = false ∧
    goParseFloatAccepts "1_" = false ∧ goParseFloatAccepts "" = false ∧
    goParseFloatAccepts "x" = false ∧ goParseFloatAccepts "1.2.3" = false ∧
    goParseFloatAccepts "1e" = false := by
  decide
